import Mathlib

/-!
# Verification of the core game logic of **Whack!**

A shallow embedding of the game logic in `src/lib.rs` of the `whack`
repository: the `Vec2D`, `Sprite` and `Board` types of the `gobs` module,
the `colours` module, and the `GameManager` state machine, together with
proofs of the specified properties.

Modelling conventions:
* Rust `f64` values are modelled as rationals (`ℚ`).  Every arithmetic
  operation the game performs (`+`, `-`, `*`, `/` by constants, comparisons)
  is used here with its exact real-number meaning; at the parameters the
  program actually uses (window size 300, timer bounds such as 1.0/0.1 and
  3.0/1.0) the `f64` computations of the source are exact, so the rational
  semantics coincides with the floating-point one there.
* `usize` indices and the `u32` score are modelled as `ℕ`.
* The random slot selection of `Board::random_position` (a uniform sample
  from the free positions) is modelled by an explicit `choice : ℕ`
  parameter selecting the element `choice % free.length` of the free-position
  list; quantifying over `choice` covers every possible outcome of the
  random sampling.
* The `gl : GlGraphics` field of `GameManager` is rendering plumbing with no
  influence on the game logic (and is ignored by the source's `PartialEq`);
  it is omitted from the embedding.
-/

/-- Rust `colours::Colour`, the `[f32; 4]` RGBA colour type. -/
abbrev Colour : Type := ℚ × ℚ × ℚ × ℚ

/-- Rust `colours::RED`. -/
def RED : Colour := (1, 0, 0, 1)

/-- Rust `colours::YELLOW`. -/
def YELLOW : Colour := (1, 1, 0, 1)

/-- Rust `gobs::Vec2D`: a two-dimensional vector. -/
structure Vec2D where
  x : ℚ
  y : ℚ
deriving DecidableEq, Repr

namespace Vec2D

/-- Rust `Vec2D::new`. -/
def new (x y : ℚ) : Vec2D := { x := x, y := y }

/-- Rust `Vec2D::add`: pairwise addition (the Rust method mutates `self`;
here the updated vector is returned). -/
def add (self other : Vec2D) : Vec2D :=
  { x := self.x + other.x, y := self.y + other.y }

end Vec2D

/-- Rust `gobs::Sprite`: an axis-aligned rectangle with a colour. -/
structure Sprite where
  pos : Vec2D
  width : ℚ
  height : ℚ
  colour : Colour
deriving DecidableEq, Repr

namespace Sprite

/-- Rust `Sprite::new`. -/
def new (x y width height : ℚ) (colour : Colour) : Sprite :=
  { pos := { x := x, y := y }, width := width, height := height, colour := colour }

/-- Rust `Sprite::get_rect`. -/
def get_rect (self : Sprite) : List ℚ :=
  [self.pos.x, self.pos.y, self.width, self.height]

/-- Rust `Sprite::is_overlapping`: AABB separating-axis test; returns `false`
exactly when one of the four strict separations holds. -/
def is_overlapping (self other : Sprite) : Bool :=
  if (self.pos.x + self.width < other.pos.x) ||
     (other.pos.x + other.width < self.pos.x) ||
     (self.pos.y + self.height < other.pos.y) ||
     (other.pos.y + other.height < self.pos.y) then
    false
  else
    true

end Sprite

/-- Rust `gobs::Tiles`, the `[Option<Sprite>; 9]` array.  Modelled as a list;
`Board.from_length` produces a list of length 9 and every operation
preserves the length. -/
abbrev Tiles : Type := List (Option Sprite)

/-- Rust `gobs::Board`: the game board. -/
structure Board where
  tiles : Tiles
  length : ℚ
deriving DecidableEq, Repr

namespace Board

/-- Rust `Board::from_length`: all 9 slots empty. -/
def from_length (length : ℚ) : Board :=
  { tiles := List.replicate 9 none, length := length }

/-- Rust `Board::free_positions`: the indices of all free slots, in ascending
order (iteration order of the array). -/
def free_positions (self : Board) : List ℕ :=
  ((self.tiles.enum.filter (fun t => t.2.isNone)).map (fun t => t.1))

/-- Rust `Board::is_full`. -/
def is_full (self : Board) : Bool :=
  if self.free_positions.isEmpty then true else false

/-- Rust `Board::x_from_index`: `(i as f64 % 3.0) * tile_length`.  For a
nonnegative integer `i` the `f64` remainder `i % 3.0` equals the natural
remainder `i % 3`. -/
def x_from_index (self : Board) (i : ℕ) : ℚ :=
  let tile_length := self.length / 3
  ((i % 3 : ℕ) : ℚ) * tile_length

/-- Rust `Board::y_from_index`: `(i as f64 / 3.0).floor() * tile_length`.  For a
nonnegative integer `i` the floored `f64` quotient equals the natural
quotient `i / 3`. -/
def y_from_index (self : Board) (i : ℕ) : ℚ :=
  let tile_length := self.length / 3
  ((i / 3 : ℕ) : ℚ) * tile_length

/-- Rust `Board::random_position`: `None` on a full board, otherwise a uniformly
sampled element of `free_positions`; the sample outcome is modelled by the
index `choice % length` into the free-position list. -/
def random_position (self : Board) (choice : ℕ) : Option ℕ :=
  let free := self.free_positions
  if free.isEmpty then
    none
  else
    some (free.getD (choice % free.length) 0)

/-- Rust `Board::add_tile`: occupy a random free slot with a fresh red tile of
side `length / 3` at that slot's grid coordinates; no-op on a full board. -/
def add_tile (self : Board) (choice : ℕ) : Board :=
  match self.random_position choice with
  | none => self
  | some i =>
      let new_tile := Sprite.new (self.x_from_index i) (self.y_from_index i)
        (self.length / 3) (self.length / 3) RED
      { self with tiles := self.tiles.set i (some new_tile) }

/-- Rust `Board::clear_board`. -/
def clear_board (self : Board) : Board :=
  { self with tiles := List.replicate 9 none }

end Board

/-- Rust `GameState`. -/
inductive GameState where
  | Ready
  | Playing
  | Win
  | Lose
deriving DecidableEq, Repr

/-- The keys the game reacts to.  `piston::input::Key` has many more
variants; every key other than the five the game inspects behaves like
`other`. -/
inductive Key where
  | up
  | down
  | left
  | right
  | space
  | other
deriving DecidableEq, Repr

/-- Rust `GameManager` (omitting the `gl` graphics handle, which carries no game
state and is ignored by the source's `PartialEq`). -/
structure GameManager where
  board : Board
  cursor : Sprite
  state : GameState
  score : ℕ
  max_time : ℚ
  min_time : ℚ
  tile_timer : ℚ
deriving DecidableEq, Repr

namespace GameManager

/-- Rust `GameManager::new`. -/
def new (window_size max_time min_time : ℚ) : GameManager :=
  let cursor_width := window_size / 16
  let cursor_height := window_size / 16
  { board := Board.from_length window_size
    cursor := Sprite.new ((window_size / 2) - (1/2) * cursor_width)
      ((window_size / 2) - (1/2) * cursor_height) cursor_width cursor_height YELLOW
    state := GameState.Ready
    score := 0
    max_time := max_time
    min_time := min_time
    tile_timer := 0 }

/-- The `PartialEq` implementation of `GameManager`: compares `board`,
`cursor`, `state`, `score`, `max_time` and `tile_timer` (and not
`min_time` or `gl`). -/
def manEq (self other : GameManager) : Bool :=
  decide (self.board = other.board) && decide (self.cursor = other.cursor) &&
  decide (self.state = other.state) && decide (self.score = other.score) &&
  decide (self.max_time = other.max_time) && decide (self.tile_timer = other.tile_timer)

/-- Rust `GameManager::reset`. -/
def reset (self : GameManager) : GameManager :=
  { self with
    board := self.board.clear_board
    cursor := { self.cursor with pos :=
      { x := (self.board.length / 2) - (1/2) * self.cursor.width
        y := (self.board.length / 2) - (1/2) * self.cursor.height } }
    state := GameState.Ready
    score := 0
    tile_timer := 0 }

/-- Rust `GameManager::playing_update`: the per-tick update in the `Playing`
state.  `dt` is the elapsed frame time (`args.dt`), `choice` models the
random slot selection inside `add_tile`. -/
def playing_update (self : GameManager) (dt : ℚ) (choice : ℕ) : GameManager :=
  let g1 := { self with tile_timer := self.tile_timer - dt }
  let g2 :=
    if g1.tile_timer < 0 then
      let g1' :=
        if g1.score < 100 then
          let score_delta := (g1.max_time - g1.min_time) * ((g1.score : ℚ) / 100)
          { g1 with tile_timer := g1.max_time - score_delta }
        else
          { g1 with tile_timer := g1.min_time }
      { g1' with board := g1'.board.add_tile choice }
    else g1
  if g2.board.is_full then { g2 with state := GameState.Lose } else g2

/-- Rust `GameManager::update`: dispatches to `playing_update` when `Playing`,
otherwise does nothing. -/
def update (self : GameManager) (dt : ℚ) (choice : ℕ) : GameManager :=
  match self.state with
  | GameState.Playing => self.playing_update dt choice
  | _ => self

/-- Rust `GameManager::ready_key_press`. -/
def ready_key_press (self : GameManager) (key : Key) : GameManager :=
  if key = Key.space then { self with state := GameState.Playing } else self

/-- Rust `GameManager::lose_key_press`: on space, `reset()` followed by the
(redundant) assignment `state = Ready`. -/
def lose_key_press (self : GameManager) (key : Key) : GameManager :=
  if key = Key.space then { self.reset with state := GameState.Ready } else self

/-- Rust `GameManager::handle_movement`: translate the cursor by one cell length
in the direction of a movement key; other keys do nothing. -/
def handle_movement (self : GameManager) (key : Key) : GameManager :=
  if key = Key.up ∨ key = Key.down ∨ key = Key.left ∨ key = Key.right then
    let move_dist : ℚ := self.board.length / 3
    let move_vec : Vec2D :=
      match key with
      | Key.up => { x := 0, y := -move_dist }
      | Key.down => { x := 0, y := move_dist }
      | Key.right => { x := move_dist, y := 0 }
      | Key.left => { x := -move_dist, y := 0 }
      | _ => { x := 0, y := 0 }
    { self with cursor := { self.cursor with pos := self.cursor.pos.add move_vec } }
  else self

/-- The list of indices of occupied tiles overlapping the cursor, exactly
as computed inside `GameManager::whack`:
`tiles.iter().map(|x| x.map_or(false, |y| y.is_overlapping(cursor)))
      .enumerate().filter(|x| x.1).map(|x| x.0)`. -/
def overlappingIndices (self : GameManager) : List ℕ :=
  ((((self.board.tiles.map
      (fun x => x.elim false (fun y => y.is_overlapping self.cursor))).enum).filter
    (fun x => x.2)).map (fun x => x.1))

/-- Rust `GameManager::whack`: on space, if some occupied tile overlaps the
cursor, remove the first such tile and increment the score.  The source
asserts `overlapping.len() == 1` before indexing; the theorem
`C4.whack_never_asserts` shows the assertion never fails on reachable
states. -/
def whack (self : GameManager) (key : Key) : GameManager :=
  if key = Key.space then
    let overlapping := self.overlappingIndices
    if overlapping.length > 0 then
      { self with
        board := { self.board with
          tiles := self.board.tiles.set (overlapping.headD 0) none }
        score := self.score + 1 }
    else self
  else self

/-- Rust `GameManager::playing_key_press`. -/
def playing_key_press (self : GameManager) (key : Key) : GameManager :=
  (self.handle_movement key).whack key

/-- Rust `GameManager::input`: dispatches a key press on the current state
(the `Win` arm is the catch-all `_ => ()`). -/
def input (self : GameManager) (key : Key) : GameManager :=
  match self.state with
  | GameState.Ready => self.ready_key_press key
  | GameState.Playing => self.playing_key_press key
  | GameState.Lose => self.lose_key_press key
  | _ => self

end GameManager

/-- The states of a `GameManager` reachable from a freshly constructed
`GameManager::new ws mt mnt` by any sequence of update ticks and key
presses. -/
inductive Reach (ws mt mnt : ℚ) : GameManager → Prop where
  | base : Reach ws mt mnt (GameManager.new ws mt mnt)
  | step_update (g : GameManager) (dt : ℚ) (choice : ℕ) :
      Reach ws mt mnt g → Reach ws mt mnt (g.update dt choice)
  | step_input (g : GameManager) (key : Key) :
      Reach ws mt mnt g → Reach ws mt mnt (g.input key)

/-- The boards reachable from `Board::from_length len` by any sequence of
`add_tile`, `clear_board` and single-tile removals (the `tiles[i].take()`
performed by `GameManager::whack`). -/
inductive BoardReach (len : ℚ) : Board → Prop where
  | base : BoardReach len (Board.from_length len)
  | step_add (b : Board) (choice : ℕ) :
      BoardReach len b → BoardReach len (b.add_tile choice)
  | step_clear (b : Board) :
      BoardReach len b → BoardReach len b.clear_board
  | step_remove (b : Board) (i : ℕ) :
      BoardReach len b → BoardReach len { b with tiles := b.tiles.set i none }

/-- Slot `i` of the board holds a tile that overlaps the cursor. -/
def occupiedOverlap (g : GameManager) (i : ℕ) : Prop :=
  ∃ s, g.board.tiles[i]? = some (some s) ∧ s.is_overlapping g.cursor = true

/-- The geometric/bookkeeping invariant maintained by every reachable
`GameManager` state: the board keeps its construction-time side length and
its 9 slots; the cursor keeps its construction-time size and colour; both
cursor coordinates stay on the lattice `ws/2 - ws/32 + k * (ws/3)` (the
initial centre position shifted by whole cell lengths); and every occupied
slot holds a tile of side `ws/3` at the grid coordinates of its index. -/
structure GameInv (ws mt : ℚ) (g : GameManager) : Prop where
  blen : g.board.length = ws
  tlen : g.board.tiles.length = 9
  cw : g.cursor.width = ws / 16
  ch : g.cursor.height = ws / 16
  ccol : g.cursor.colour = YELLOW
  mx : g.max_time = mt
  cx : ∃ k : ℤ, g.cursor.pos.x = ws / 2 - ws / 32 + k * (ws / 3)
  cy : ∃ k : ℤ, g.cursor.pos.y = ws / 2 - ws / 32 + k * (ws / 3)
  grid : ∀ i s, g.board.tiles[i]? = some (some s) →
    s.pos.x = ((i % 3 : ℕ) : ℚ) * (ws / 3) ∧ s.pos.y = ((i / 3 : ℕ) : ℚ) * (ws / 3) ∧
    s.width = ws / 3 ∧ s.height = ws / 3

/-- A board with a single tile in slot 4 (the centre cell), used to
exercise the whack logic on concrete data. -/
def wBoard1 : Board :=
  { tiles := (List.replicate 9 none).set 4 (some (Sprite.new 100 100 100 100 RED))
    length := 300 }

/-- A freshly constructed manager switched to `Playing`, with an empty
board. -/
def wMan0 : GameManager :=
  { GameManager.new 300 3 1 with state := GameState.Playing }

/-- A `Playing` manager whose board has a single tile under the cursor. -/
def wMan1 : GameManager :=
  { GameManager.new 300 3 1 with state := GameState.Playing, board := wBoard1 }

/-- A board with all 9 slots occupied. -/
def fullBoard : Board :=
  { tiles := List.replicate 9 (some (Sprite.new 0 0 100 100 RED)), length := 300 }

/-- A state reachable from `GameManager::new 0 1 1` (window size zero):
press space, then two expired update ticks, leaving two degenerate tiles
both overlapping the degenerate cursor. -/
def degenerateMan : GameManager :=
  (((GameManager.new 0 1 1).input Key.space).update 1 0).update 2 0

/-- The manager after the space press in `degenerateMan`'s history. -/
def mDegA : GameManager := { GameManager.new 0 1 1 with state := GameState.Playing }

/-- The manager after the first expired update tick (one tile placed). -/
def mDegB : GameManager :=
  { mDegA with
    board := mDegA.board.add_tile 0
    tile_timer := mDegA.max_time - (mDegA.max_time - mDegA.min_time) * ((mDegA.score : ℚ) / 100) }

/-- The manager after the second expired update tick (two tiles placed). -/
def mDegC : GameManager :=
  { mDegB with
    board := mDegB.board.add_tile 0
    tile_timer := mDegB.max_time - (mDegB.max_time - mDegB.min_time) * ((mDegB.score : ℚ) / 100) }

/-! ### List helper lemmas -/

/-- Counting pairs of `enumFrom` whose second component satisfies `p` is
counting elements satisfying `p`. -/
theorem countP_enumFrom {α : Type} (p : α → Bool) (l : List α) :
    ∀ n : ℕ, (l.enumFrom n).countP (fun t => p t.2) = l.countP p := by
  induction l with
  | nil => intro n; rfl
  | cons x t ih =>
      intro n
      simp only [List.enumFrom, List.countP_cons, ih]

/-- The list `Board.free_positions` has as many elements as there are `none` slots. -/
theorem free_positions_length (b : Board) :
    b.free_positions.length = b.tiles.countP (fun o => o.isNone) := by
  unfold Board.free_positions
  rw [List.length_map, ← List.countP_eq_length_filter, List.enum]
  exact countP_enumFrom (fun o => o.isNone) b.tiles 0

/-- Setting a `p`-satisfying element to a non-`p` one drops `countP` by
exactly one. -/
theorem countP_set_drop {α : Type} (p : α → Bool) :
    ∀ (l : List α) (i : ℕ) (a v : α), l[i]? = some a → p a = true → p v = false →
      (l.set i v).countP p + 1 = l.countP p := by
  intro l
  induction l with
  | nil => intro i a v h _ _; simp at h
  | cons x t ih =>
      intro i a v h hpa hpv
      cases i with
      | zero =>
          simp only [List.getElem?_cons_zero, Option.some.injEq] at h
          subst h
          simp [List.set, List.countP_cons, hpa, hpv]
      | succ n =>
          simp only [List.getElem?_cons_succ] at h
          simp only [List.set, List.countP_cons]
          have := ih n a v h hpa hpv
          cases hpx : p x <;> simp [hpx] <;> omega

/-- Membership in `Board.free_positions` characterises the free slots. -/
theorem mem_free_positions (b : Board) (i : ℕ) :
    i ∈ b.free_positions ↔ b.tiles[i]? = some none := by
  unfold Board.free_positions
  simp only [List.mem_map, List.mem_filter, Prod.exists]
  constructor
  · rintro ⟨j, a, ⟨hmem, ha⟩, rfl⟩
    have hj := List.mk_mem_enum_iff_getElem?.mp hmem
    cases a with
    | none => exact hj
    | some s => simp at ha
  · intro h
    exact ⟨i, none, ⟨List.mk_mem_enum_iff_getElem?.mpr h, rfl⟩, rfl⟩

/-- Membership in the overlap list computed inside `GameManager::whack`
characterises the occupied slots whose tile overlaps the cursor. -/
theorem mem_overlappingIndices (g : GameManager) (i : ℕ) :
    i ∈ g.overlappingIndices ↔ occupiedOverlap g i := by
  unfold GameManager.overlappingIndices occupiedOverlap
  simp only [List.mem_map, List.mem_filter, Prod.exists]
  constructor
  · rintro ⟨j, b, ⟨hmem, hb⟩, rfl⟩
    have hj := List.mk_mem_enum_iff_getElem?.mp hmem
    rw [List.getElem?_map] at hj
    rcases Option.map_eq_some'.mp hj with ⟨t, ht, hpred⟩
    cases t with
    | none => simp at hpred; subst hpred; simp at hb
    | some s =>
        refine ⟨s, ht, ?_⟩
        simp only [Option.elim] at hpred
        rw [hpred]
        exact hb
  · rintro ⟨s, hget, hov⟩
    refine ⟨i, true, ⟨List.mk_mem_enum_iff_getElem?.mpr ?_, rfl⟩, rfl⟩
    rw [List.getElem?_map, hget]
    simp [hov]

/-- The overlap list computed inside `GameManager::whack` has no duplicate
indices. -/
theorem overlappingIndices_nodup (g : GameManager) : g.overlappingIndices.Nodup := by
  unfold GameManager.overlappingIndices
  have h1 : List.Sublist
      (((g.board.tiles.map
        (fun x => x.elim false (fun y => y.is_overlapping g.cursor))).enum).filter
        (fun x => x.2))
      ((g.board.tiles.map
        (fun x => x.elim false (fun y => y.is_overlapping g.cursor))).enum) :=
    List.filter_sublist _
  have h2 := h1.map (fun x : ℕ × Bool => x.1)
  have h3 : ((g.board.tiles.map
      (fun x => x.elim false (fun y => y.is_overlapping g.cursor))).enum).map
      (fun x : ℕ × Bool => x.1) = List.range _ := List.enum_map_fst _
  rw [h3] at h2
  exact (List.nodup_range _).sublist h2

/-- A duplicate-free list whose elements are pairwise equal has at most one
element. -/
theorem length_le_one_of_nodup {α : Type} (l : List α) (hn : l.Nodup)
    (h : ∀ a ∈ l, ∀ b ∈ l, a = b) : l.length ≤ 1 := by
  match l with
  | [] => simp
  | [a] => simp
  | a :: b :: t =>
      exfalso
      have hab : a = b := h a (by simp) b (by simp)
      rcases List.nodup_cons.mp hn with ⟨ha, _⟩
      exact ha (by rw [hab]; exact List.mem_cons_self b t)

/-- The head of a nonempty list is a member. -/
theorem headD_mem_of_ne_nil {α : Type} (l : List α) (d : α) (h : l ≠ []) :
    l.headD d ∈ l := by
  cases l with
  | nil => exact absurd rfl h
  | cons a t => simp [List.headD]

/-! ### Board lemmas -/

/-- On a full board `random_position` returns `None`; otherwise it returns
some element of the free-position list. -/
theorem random_position_spec (b : Board) (choice : ℕ) :
    (b.free_positions = [] → b.random_position choice = none) ∧
    (b.free_positions ≠ [] →
      ∃ i, b.random_position choice = some i ∧ i ∈ b.free_positions) := by
  constructor
  · intro h
    unfold Board.random_position
    simp [h]
  · intro h
    have hne : b.free_positions.isEmpty = false := by
      simpa [List.isEmpty_iff] using h
    unfold Board.random_position
    simp only [hne, Bool.false_eq_true, if_false]
    have hlt : choice % b.free_positions.length < b.free_positions.length :=
      Nat.mod_lt _ (List.length_pos.mpr h)
    refine ⟨_, rfl, ?_⟩
    rw [List.getD_eq_getElem b.free_positions 0 hlt]
    exact List.getElem_mem hlt

/-- Method `add_tile` on a full board is the identity. -/
theorem add_tile_of_full (b : Board) (choice : ℕ) (h : b.free_positions = []) :
    b.add_tile choice = b := by
  unfold Board.add_tile
  rw [(random_position_spec b choice).1 h]

/-- Method `add_tile` on a non-full board writes a fresh tile into some free
slot. -/
theorem add_tile_spec (b : Board) (choice : ℕ) (h : b.free_positions ≠ []) :
    ∃ i ∈ b.free_positions,
      b.add_tile choice =
        { b with tiles := b.tiles.set i (some (Sprite.new (b.x_from_index i)
            (b.y_from_index i) (b.length / 3) (b.length / 3) RED)) } := by
  rcases (random_position_spec b choice).2 h with ⟨i, heq, hmem⟩
  refine ⟨i, hmem, ?_⟩
  unfold Board.add_tile
  rw [heq]

/-- Method `add_tile` never changes the board's side length. -/
theorem add_tile_board_length (b : Board) (choice : ℕ) :
    (b.add_tile choice).length = b.length := by
  unfold Board.add_tile
  cases b.random_position choice <;> rfl

/-- Method `add_tile` never changes the number of slots. -/
theorem add_tile_tiles_length (b : Board) (choice : ℕ) :
    (b.add_tile choice).tiles.length = b.tiles.length := by
  unfold Board.add_tile
  cases b.random_position choice with
  | none => rfl
  | some i => simp


/-! ### Invariant preservation for `GameManager` -/

/-- A fresh manager satisfies the invariant. -/
theorem gameInv_new (ws mt mnt : ℚ) : GameInv ws mt (GameManager.new ws mt mnt) := by
  refine ⟨rfl, by simp [GameManager.new, Board.from_length], rfl, rfl, rfl, rfl,
    ⟨0, ?_⟩, ⟨0, ?_⟩, ?_⟩
  · show ws / 2 - 1 / 2 * (ws / 16) = ws / 2 - ws / 32 + (0 : ℤ) * (ws / 3)
    push_cast
    ring
  · show ws / 2 - 1 / 2 * (ws / 16) = ws / 2 - ws / 32 + (0 : ℤ) * (ws / 3)
    push_cast
    ring
  · intro i s hs
    simp only [GameManager.new, Board.from_length] at hs
    rcases lt_or_ge i 9 with hi | hi
    · rw [List.getElem?_replicate, if_pos hi] at hs
      exact absurd hs (by simp)
    · rw [List.getElem?_replicate, if_neg (by omega)] at hs
      exact absurd hs (by simp)

/-- The invariant only looks at `board`, `cursor` and `max_time`. -/
theorem gameInv_congr (ws mt : ℚ) (g g' : GameManager) (hb : g'.board = g.board)
    (hc : g'.cursor = g.cursor) (hm : g'.max_time = g.max_time)
    (h : GameInv ws mt g) : GameInv ws mt g' := by
  obtain ⟨h1, h2, h3, h4, h5, h6, h7, h8, h9⟩ := h
  exact ⟨by rw [hb]; exact h1, by rw [hb]; exact h2, by rw [hc]; exact h3,
    by rw [hc]; exact h4, by rw [hc]; exact h5, by rw [hm]; exact h6,
    by rw [hc]; exact h7, by rw [hc]; exact h8, by rw [hb]; exact h9⟩

/-- Adding a tile preserves the invariant. -/
theorem gameInv_add_tile (ws mt : ℚ) (g g' : GameManager) (choice : ℕ)
    (hb : g'.board = g.board.add_tile choice) (hc : g'.cursor = g.cursor)
    (hm : g'.max_time = g.max_time) (h : GameInv ws mt g) : GameInv ws mt g' := by
  by_cases hfree : g.board.free_positions = []
  · exact gameInv_congr ws mt g g' (by rw [hb, add_tile_of_full _ _ hfree]) hc hm h
  · rcases add_tile_spec g.board choice hfree with ⟨i, hmem, heq⟩
    have hnone : g.board.tiles[i]? = some none := (mem_free_positions _ _).mp hmem
    have hilt : i < g.board.tiles.length := by
      rcases List.getElem?_eq_some.mp hnone with ⟨hlt, _⟩
      exact hlt
    obtain ⟨h1, h2, h3, h4, h5, h6, h7, h8, h9⟩ := h
    refine ⟨?_, ?_, by rw [hc]; exact h3, by rw [hc]; exact h4, by rw [hc]; exact h5,
      by rw [hm]; exact h6, by rw [hc]; exact h7, by rw [hc]; exact h8, ?_⟩
    · rw [hb, add_tile_board_length]; exact h1
    · rw [hb, add_tile_tiles_length]; exact h2
    · intro j s hs
      rw [hb, heq] at hs
      simp only at hs
      by_cases hij : i = j
      · subst hij
        rw [List.getElem?_set_self (by simpa using hilt)] at hs
        simp only [Option.some.injEq] at hs
        subst hs
        refine ⟨?_, ?_, by simp [Sprite.new, h1], by simp [Sprite.new, h1]⟩
        · simp [Sprite.new, Board.x_from_index, h1]
        · simp [Sprite.new, Board.y_from_index, h1]
      · rw [List.getElem?_set_ne hij] at hs
        exact h9 j s hs

/-- Removing a tile preserves the invariant. -/
theorem gameInv_set_none (ws mt : ℚ) (g g' : GameManager) (i : ℕ)
    (hb : g'.board = { g.board with tiles := g.board.tiles.set i none })
    (hc : g'.cursor = g.cursor) (hm : g'.max_time = g.max_time)
    (h : GameInv ws mt g) : GameInv ws mt g' := by
  obtain ⟨h1, h2, h3, h4, h5, h6, h7, h8, h9⟩ := h
  refine ⟨by rw [hb]; exact h1, by rw [hb]; simpa using h2, by rw [hc]; exact h3,
    by rw [hc]; exact h4, by rw [hc]; exact h5, by rw [hm]; exact h6,
    by rw [hc]; exact h7, by rw [hc]; exact h8, ?_⟩
  intro j s hs
  rw [hb] at hs
  simp only at hs
  by_cases hij : i = j
  · subst hij
    by_cases hilt : i < g.board.tiles.length
    · rw [List.getElem?_set_self (by simpa using hilt)] at hs
      exact absurd hs (by simp)
    · rw [List.set_eq_of_length_le (by omega)] at hs
      exact h9 i s hs
  · rw [List.getElem?_set_ne hij] at hs
    exact h9 j s hs

/-- Method `reset` re-establishes the invariant. -/
theorem gameInv_reset (ws mt : ℚ) (g : GameManager) (h : GameInv ws mt g) :
    GameInv ws mt g.reset := by
  obtain ⟨h1, h2, h3, h4, h5, h6, h7, h8, h9⟩ := h
  unfold GameManager.reset Board.clear_board
  refine ⟨h1, by simp, h3, h4, h5, h6, ⟨0, ?_⟩, ⟨0, ?_⟩, ?_⟩
  · show g.board.length / 2 - 1 / 2 * g.cursor.width = ws / 2 - ws / 32 + (0 : ℤ) * (ws / 3)
    rw [h1, h3]
    push_cast
    ring
  · show g.board.length / 2 - 1 / 2 * g.cursor.height = ws / 2 - ws / 32 + (0 : ℤ) * (ws / 3)
    rw [h1, h4]
    push_cast
    ring
  · intro i s hs
    simp only at hs
    rcases lt_or_ge i 9 with hi | hi
    · rw [List.getElem?_replicate, if_pos hi] at hs
      exact absurd hs (by simp)
    · rw [List.getElem?_replicate, if_neg (by omega)] at hs
      exact absurd hs (by simp)

/-- Cursor movement preserves the invariant. -/
theorem gameInv_handle_movement (ws mt : ℚ) (g : GameManager) (key : Key)
    (h : GameInv ws mt g) : GameInv ws mt (g.handle_movement key) := by
  obtain ⟨h1, h2, h3, h4, h5, h6, h7, h8, h9⟩ := h
  obtain ⟨kx, hkx⟩ := h7
  obtain ⟨ky, hky⟩ := h8
  unfold GameManager.handle_movement
  split_ifs with hk
  · cases key with
    | up =>
        refine ⟨h1, h2, h3, h4, h5, h6, ⟨kx, ?_⟩, ⟨ky - 1, ?_⟩, h9⟩
        · show g.cursor.pos.x + 0 = ws / 2 - ws / 32 + (kx : ℚ) * (ws / 3)
          rw [hkx]; ring
        · show g.cursor.pos.y + -(g.board.length / 3) =
            ws / 2 - ws / 32 + ((ky - 1 : ℤ) : ℚ) * (ws / 3)
          rw [hky, h1]; push_cast; ring
    | down =>
        refine ⟨h1, h2, h3, h4, h5, h6, ⟨kx, ?_⟩, ⟨ky + 1, ?_⟩, h9⟩
        · show g.cursor.pos.x + 0 = ws / 2 - ws / 32 + (kx : ℚ) * (ws / 3)
          rw [hkx]; ring
        · show g.cursor.pos.y + g.board.length / 3 =
            ws / 2 - ws / 32 + ((ky + 1 : ℤ) : ℚ) * (ws / 3)
          rw [hky, h1]; push_cast; ring
    | left =>
        refine ⟨h1, h2, h3, h4, h5, h6, ⟨kx - 1, ?_⟩, ⟨ky, ?_⟩, h9⟩
        · show g.cursor.pos.x + -(g.board.length / 3) =
            ws / 2 - ws / 32 + ((kx - 1 : ℤ) : ℚ) * (ws / 3)
          rw [hkx, h1]; push_cast; ring
        · show g.cursor.pos.y + 0 = ws / 2 - ws / 32 + (ky : ℚ) * (ws / 3)
          rw [hky]; ring
    | right =>
        refine ⟨h1, h2, h3, h4, h5, h6, ⟨kx + 1, ?_⟩, ⟨ky, ?_⟩, h9⟩
        · show g.cursor.pos.x + g.board.length / 3 =
            ws / 2 - ws / 32 + ((kx + 1 : ℤ) : ℚ) * (ws / 3)
          rw [hkx, h1]; push_cast; ring
        · show g.cursor.pos.y + 0 = ws / 2 - ws / 32 + (ky : ℚ) * (ws / 3)
          rw [hky]; ring
    | space => simp at hk
    | other => simp at hk
  · exact ⟨h1, h2, h3, h4, h5, h6, ⟨kx, hkx⟩, ⟨ky, hky⟩, h9⟩

/-- Whacking preserves the invariant. -/
theorem gameInv_whack (ws mt : ℚ) (g : GameManager) (key : Key)
    (h : GameInv ws mt g) : GameInv ws mt (g.whack key) := by
  unfold GameManager.whack
  dsimp only
  split_ifs with h1 h2
  · exact gameInv_set_none ws mt g _ (g.overlappingIndices.headD 0) rfl rfl rfl h
  · exact h
  · exact h

/-- Key-press handling preserves the invariant. -/
theorem gameInv_input (ws mt : ℚ) (g : GameManager) (key : Key)
    (h : GameInv ws mt g) : GameInv ws mt (g.input key) := by
  unfold GameManager.input
  cases hs : g.state with
  | Ready =>
      unfold GameManager.ready_key_press
      split_ifs
      · exact gameInv_congr ws mt g _ rfl rfl rfl h
      · exact h
  | Playing =>
      exact gameInv_whack ws mt _ key (gameInv_handle_movement ws mt g key h)
  | Win => exact h
  | Lose =>
      unfold GameManager.lose_key_press
      split_ifs
      · exact gameInv_congr ws mt g.reset _ rfl rfl rfl (gameInv_reset ws mt g h)
      · exact h

/-- The board computed by `playing_update` is the old board or the old
board with one tile added; cursor and timing bounds are untouched. -/
theorem playing_update_fields (g : GameManager) (dt : ℚ) (choice : ℕ) :
    ((g.playing_update dt choice).board = g.board ∨
     (g.playing_update dt choice).board = g.board.add_tile choice) ∧
    (g.playing_update dt choice).cursor = g.cursor ∧
    (g.playing_update dt choice).max_time = g.max_time ∧
    (g.playing_update dt choice).min_time = g.min_time ∧
    (g.playing_update dt choice).score = g.score := by
  unfold GameManager.playing_update
  dsimp only
  split_ifs <;> simp

/-- A single update tick preserves the invariant. -/
theorem gameInv_update (ws mt : ℚ) (g : GameManager) (dt : ℚ) (choice : ℕ)
    (h : GameInv ws mt g) : GameInv ws mt (g.update dt choice) := by
  unfold GameManager.update
  cases hs : g.state with
  | Playing =>
      obtain ⟨hb, hc, hm, _, _⟩ := playing_update_fields g dt choice
      rcases hb with hb | hb
      · exact gameInv_congr ws mt g _ hb hc hm h
      · exact gameInv_add_tile ws mt g _ choice hb hc hm h
  | Ready => exact h
  | Win => exact h
  | Lose => exact h

/-- Every reachable state satisfies the invariant. -/
theorem reach_gameInv (ws mt mnt : ℚ) (g : GameManager) (h : Reach ws mt mnt g) :
    GameInv ws mt g := by
  induction h with
  | base => exact gameInv_new ws mt mnt
  | step_update g dt choice _ ih => exact gameInv_update ws mt g dt choice ih
  | step_input g key _ ih => exact gameInv_input ws mt g key ih

/-! ### Geometry: at most one tile can overlap the cursor -/

/-- Method `is_overlapping` returns `true` exactly when neither axis strictly
separates the two rectangles. -/
theorem is_overlapping_true_iff (a b : Sprite) :
    a.is_overlapping b = true ↔
      b.pos.x ≤ a.pos.x + a.width ∧ a.pos.x ≤ b.pos.x + b.width ∧
      b.pos.y ≤ a.pos.y + a.height ∧ a.pos.y ≤ b.pos.y + b.height := by
  simp [Sprite.is_overlapping, not_lt]
  tauto

/-- A cursor cell column constraint: if a tile column `c` (of width
`ws/3`) is not strictly separated from a cursor interval of width `ws/16`
starting at `ws/2 - ws/32 + k * (ws/3)`, then `c = k + 1`. -/
theorem axis_overlap_unique (ws : ℚ) (hws : 0 < ws) (k : ℤ) (c : ℕ)
    (h1 : ws / 2 - ws / 32 + (k : ℚ) * (ws / 3) ≤ (c : ℚ) * (ws / 3) + ws / 3)
    (h2 : (c : ℚ) * (ws / 3) ≤ ws / 2 - ws / 32 + (k : ℚ) * (ws / 3) + ws / 16) :
    (c : ℤ) = k + 1 := by
  have h3 : (0 : ℚ) < ws / 3 := by linarith
  have hm1 : (13 / 32 : ℚ) * (ws / 3) ≤ ((c : ℚ) - (k : ℚ)) * (ws / 3) := by
    nlinarith [h1]
  have hm2 : ((c : ℚ) - (k : ℚ)) * (ws / 3) ≤ (51 / 32 : ℚ) * (ws / 3) := by
    nlinarith [h2]
  have hd1 : (13 / 32 : ℚ) ≤ (c : ℚ) - (k : ℚ) := (mul_le_mul_right h3).mp hm1
  have hd2 : (c : ℚ) - (k : ℚ) ≤ 51 / 32 := (mul_le_mul_right h3).mp hm2
  have hk1 : (k : ℚ) < (c : ℚ) := by linarith
  have hk2 : (c : ℚ) < (k : ℚ) + 2 := by linarith
  have hk1' : k < (c : ℤ) := by exact_mod_cast hk1
  have hk2' : (c : ℤ) < k + 2 := by exact_mod_cast hk2
  omega

/-- Under the invariant (with a positive window size), any two occupied
slots whose tiles overlap the cursor coincide. -/
theorem gameInv_overlap_unique (ws mt : ℚ) (hws : 0 < ws) (g : GameManager)
    (h : GameInv ws mt g) (i j : ℕ) (hi : occupiedOverlap g i)
    (hj : occupiedOverlap g j) : i = j := by
  obtain ⟨s, hsi, hovi⟩ := hi
  obtain ⟨t, hsj, hovj⟩ := hj
  obtain ⟨kx, hkx⟩ := h.cx
  obtain ⟨ky, hky⟩ := h.cy
  obtain ⟨hsx, hsy, hsw, hsh⟩ := h.grid i s hsi
  obtain ⟨htx, hty, htw, hth⟩ := h.grid j t hsj
  rw [is_overlapping_true_iff] at hovi hovj
  obtain ⟨hi1, hi2, hi3, hi4⟩ := hovi
  obtain ⟨hj1, hj2, hj3, hj4⟩ := hovj
  rw [hkx, hsx, hsw] at hi1
  rw [hsx, hkx, h.cw] at hi2
  rw [hky, hsy, hsh] at hi3
  rw [hsy, hky, h.ch] at hi4
  rw [hkx, htx, htw] at hj1
  rw [htx, hkx, h.cw] at hj2
  rw [hky, hty, hth] at hj3
  rw [hty, hky, h.ch] at hj4
  have hcx_i : ((i % 3 : ℕ) : ℤ) = kx + 1 := axis_overlap_unique ws hws kx (i % 3) hi1 hi2
  have hcx_j : ((j % 3 : ℕ) : ℤ) = kx + 1 := axis_overlap_unique ws hws kx (j % 3) hj1 hj2
  have hcy_i : ((i / 3 : ℕ) : ℤ) = ky + 1 := axis_overlap_unique ws hws ky (i / 3) hi3 hi4
  have hcy_j : ((j / 3 : ℕ) : ℤ) = ky + 1 := axis_overlap_unique ws hws ky (j / 3) hj3 hj4
  have hx : i % 3 = j % 3 := by omega
  have hy : i / 3 = j / 3 := by omega
  omega

/-! ### Step-behaviour helper lemmas -/

/-- Space is not a movement key, so `handle_movement` ignores it. -/
theorem handle_movement_space (g : GameManager) : g.handle_movement Key.space = g := by
  unfold GameManager.handle_movement
  simp

/-- In the `Playing` state a space press goes through `whack` (after a
vacuous `handle_movement`). -/
theorem input_space_playing (g : GameManager) (h : g.state = GameState.Playing) :
    g.input Key.space = g.whack Key.space := by
  unfold GameManager.input GameManager.playing_key_press
  simp only [h]
  rw [handle_movement_space]

/-- Closed form of `whack` on a space press. -/
theorem whack_space_eq (g : GameManager) :
    g.whack Key.space =
      if g.overlappingIndices.length > 0 then
        { g with
          board := { g.board with
            tiles := g.board.tiles.set (g.overlappingIndices.headD 0) none }
          score := g.score + 1 }
      else g := by
  unfold GameManager.whack
  dsimp only
  simp

/-- Method `playing_update` leaves the state alone or sets it to `Lose`. -/
theorem playing_update_state (g : GameManager) (dt : ℚ) (choice : ℕ) :
    (g.playing_update dt choice).state = g.state ∨
    (g.playing_update dt choice).state = GameState.Lose := by
  unfold GameManager.playing_update
  dsimp only
  split_ifs <;> simp

/-- Method `handle_movement` never changes the state. -/
theorem handle_movement_state (g : GameManager) (key : Key) :
    (g.handle_movement key).state = g.state := by
  unfold GameManager.handle_movement
  split_ifs <;> rfl

/-- Method `whack` never changes the state. -/
theorem whack_state (g : GameManager) (key : Key) :
    (g.whack key).state = g.state := by
  unfold GameManager.whack
  dsimp only
  split_ifs <;> rfl

/-- Method `is_overlapping` returns `false` exactly when some axis strictly
separates the rectangles. -/
theorem is_overlapping_false_iff (a b : Sprite) :
    a.is_overlapping b = false ↔
      a.pos.x + a.width < b.pos.x ∨ b.pos.x + b.width < a.pos.x ∨
      a.pos.y + a.height < b.pos.y ∨ b.pos.y + b.height < a.pos.y := by
  rw [Bool.eq_false_iff]
  rw [Ne, is_overlapping_true_iff]
  simp only [not_and_or, not_le]

/-! ### Claims -/

/-- C5: `is_overlapping(a, b)` returns `false` if and only if the two
axis-aligned rectangles are strictly separated along the x axis or the
y axis; in particular, rectangles that merely touch at an edge (the
right edge coordinate of `a` equals the left edge coordinate of `b`,
with no other strict separation) are reported as overlapping. -/
theorem C5_is_overlapping_separation (a b : Sprite) :
    (a.is_overlapping b = false ↔
      a.pos.x + a.width < b.pos.x ∨ b.pos.x + b.width < a.pos.x ∨
      a.pos.y + a.height < b.pos.y ∨ b.pos.y + b.height < a.pos.y) ∧
    (a.pos.x + a.width = b.pos.x →
      ¬(b.pos.x + b.width < a.pos.x) → ¬(a.pos.y + a.height < b.pos.y) →
      ¬(b.pos.y + b.height < a.pos.y) → a.is_overlapping b = true) := by
  refine ⟨is_overlapping_false_iff a b, ?_⟩
  intro hedge h2 h3 h4
  rw [is_overlapping_true_iff]
  exact ⟨hedge.ge, not_lt.mp h2, not_lt.mp h3, not_lt.mp h4⟩

/-- Witness for C5: the spec's own example pair, two 10×10 squares at
`(0,0)` and `(9,0)` overlap, at `(0,0)` and `(11,0)` they do not, and the
touching pair at `(0,0)` and `(10,0)` overlaps. -/
theorem C5_witness :
    Sprite.is_overlapping (Sprite.new 0 0 10 10 RED) (Sprite.new 10 0 10 10 RED) = true ∧
    Sprite.is_overlapping (Sprite.new 0 0 10 10 RED) (Sprite.new 9 0 10 10 RED) = true ∧
    Sprite.is_overlapping (Sprite.new 0 0 10 10 RED) (Sprite.new 11 0 10 10 RED) = false := by
  refine ⟨?_, ?_, ?_⟩
  · exact (C5_is_overlapping_separation (Sprite.new 0 0 10 10 RED)
      (Sprite.new 10 0 10 10 RED)).2 (by norm_num [Sprite.new])
      (by norm_num [Sprite.new]) (by norm_num [Sprite.new]) (by norm_num [Sprite.new])
  · cases hb : (Sprite.new 0 0 10 10 RED).is_overlapping (Sprite.new 9 0 10 10 RED) with
    | true => rfl
    | false =>
        have hsep := (C5_is_overlapping_separation (Sprite.new 0 0 10 10 RED)
          (Sprite.new 9 0 10 10 RED)).1.mp hb
        norm_num [Sprite.new] at hsep
  · exact (C5_is_overlapping_separation (Sprite.new 0 0 10 10 RED)
      (Sprite.new 11 0 10 10 RED)).1.mpr (by norm_num [Sprite.new])

/-- C10: the `PartialEq` implementation on `GameManager` compares exactly
the `board`, `cursor`, `state`, `score`, `max_time` and `tile_timer`
fields; two managers that differ only in `min_time` compare equal. -/
theorem C10_manEq_ignores_min_time (a b : GameManager) :
    (GameManager.manEq a b = true ↔
      a.board = b.board ∧ a.cursor = b.cursor ∧ a.state = b.state ∧
      a.score = b.score ∧ a.max_time = b.max_time ∧ a.tile_timer = b.tile_timer) ∧
    (a.board = b.board → a.cursor = b.cursor → a.state = b.state →
      a.score = b.score → a.max_time = b.max_time → a.tile_timer = b.tile_timer →
      GameManager.manEq a b = true) := by
  constructor
  · unfold GameManager.manEq
    simp only [Bool.and_eq_true, decide_eq_true_eq]
    tauto
  · intro h1 h2 h3 h4 h5 h6
    unfold GameManager.manEq
    simp [h1, h2, h3, h4, h5, h6]

/-- Witness for C10: two fresh managers that differ only in `min_time`
(`0.1` vs `0.2`) compare equal. -/
theorem C10_witness :
    GameManager.manEq (GameManager.new 300 1 (1/10)) (GameManager.new 300 1 (2/10)) = true :=
  (C10_manEq_ignores_min_time (GameManager.new 300 1 (1/10))
    (GameManager.new 300 1 (2/10))).2 rfl rfl rfl rfl rfl rfl

/-- C2: `add_tile` on a board with `k > 0` free slots leaves exactly
`k - 1` free slots and fills one of the previously free slots (leaving
every other slot untouched, so no occupied slot is overwritten); on a full
board (`k = 0`) it is a no-op. -/
theorem C2_add_tile (b : Board) (choice : ℕ) :
    (0 < b.free_positions.length →
      (b.add_tile choice).free_positions.length = b.free_positions.length - 1 ∧
      ∃ i ∈ b.free_positions, b.tiles[i]? = some none ∧
        (b.add_tile choice).tiles = b.tiles.set i (some (Sprite.new (b.x_from_index i)
          (b.y_from_index i) (b.length / 3) (b.length / 3) RED))) ∧
    (b.free_positions.length = 0 → b.add_tile choice = b) := by
  constructor
  · intro hk
    have hne : b.free_positions ≠ [] := List.length_pos.mp hk
    rcases add_tile_spec b choice hne with ⟨i, hmem, heq⟩
    have hnone := (mem_free_positions b i).mp hmem
    refine ⟨?_, i, hmem, hnone, by rw [heq]⟩
    have hdrop := countP_set_drop (fun o : Option Sprite => o.isNone) b.tiles i none
      (some (Sprite.new (b.x_from_index i) (b.y_from_index i) (b.length / 3)
        (b.length / 3) RED)) hnone rfl rfl
    rw [heq, free_positions_length, free_positions_length]
    simp only
    omega
  · intro h0
    exact add_tile_of_full b choice (List.length_eq_zero.mp h0)

/-- Witness for C2: on a fresh board (9 free slots) `add_tile` leaves 8
free slots and fills a previously free slot; on a full board it is a
no-op. -/
theorem C2_witness :
    (0 < (Board.from_length 300).free_positions.length ∧
      ((Board.from_length 300).add_tile 0).free_positions.length =
        (Board.from_length 300).free_positions.length - 1 ∧
      ∃ i ∈ (Board.from_length 300).free_positions,
        (Board.from_length 300).tiles[i]? = some none ∧
        ((Board.from_length 300).add_tile 0).tiles =
          (Board.from_length 300).tiles.set i
            (some (Sprite.new ((Board.from_length 300).x_from_index i)
              ((Board.from_length 300).y_from_index i)
              ((Board.from_length 300).length / 3)
              ((Board.from_length 300).length / 3) RED))) ∧
    (fullBoard.free_positions.length = 0 ∧ fullBoard.add_tile 0 = fullBoard) :=
  ⟨⟨by decide, (C2_add_tile (Board.from_length 300) 0).1 (by decide)⟩,
   ⟨by decide, (C2_add_tile fullBoard 0).2 (by decide)⟩⟩

/-- C3: a `Playing` update tick decrements `tile_timer` by `dt`; if the
result is negative the timer is reset to the score-interpolated value
(`max_time - (max_time - min_time) * score/100` below 100 points,
`min_time` from 100 points on) and a tile is added; afterwards the state
becomes `Lose` exactly if the board is full; ticks in other states change
nothing. -/
theorem C3_update_tick (g : GameManager) (dt : ℚ) (choice : ℕ) :
    (g.state = GameState.Playing →
      (g.tile_timer - dt < 0 →
        (g.update dt choice).tile_timer =
          (if g.score < 100 then
            g.max_time - (g.max_time - g.min_time) * ((g.score : ℚ) / 100)
          else g.min_time) ∧
        (g.update dt choice).board = g.board.add_tile choice) ∧
      (¬ g.tile_timer - dt < 0 →
        (g.update dt choice).tile_timer = g.tile_timer - dt ∧
        (g.update dt choice).board = g.board) ∧
      (g.update dt choice).state =
        (if (g.update dt choice).board.is_full then GameState.Lose
         else GameState.Playing)) ∧
    (g.state ≠ GameState.Playing → g.update dt choice = g) := by
  constructor
  · intro h
    unfold GameManager.update
    simp only [h]
    unfold GameManager.playing_update
    dsimp only
    split_ifs <;> simp_all
  · intro h
    unfold GameManager.update
    cases hs : g.state with
    | Ready => rfl
    | Playing => exact absurd hs h
    | Win => rfl
    | Lose => rfl

/-- Witness for C3: on a `Playing` manager with an expired timer the tick
resets the timer and adds a tile, and a tick on a fresh (`Ready`) manager
changes nothing. -/
theorem C3_witness :
    ((wMan0.update 1 0).tile_timer =
      (if wMan0.score < 100 then
        wMan0.max_time - (wMan0.max_time - wMan0.min_time) * ((wMan0.score : ℚ) / 100)
      else wMan0.min_time) ∧
     (wMan0.update 1 0).board = wMan0.board.add_tile 0) ∧
    (GameManager.new 300 1 1).update 1 0 = GameManager.new 300 1 1 :=
  ⟨((C3_update_tick wMan0 1 0).1 rfl).1
    (by norm_num [wMan0, GameManager.new]),
   (C3_update_tick (GameManager.new 300 1 1) 1 0).2 (by simp [GameManager.new])⟩

/-- Method `whack` ignores every key other than space. -/
theorem whack_non_space (g : GameManager) (key : Key) (h : key ≠ Key.space) :
    g.whack key = g := by
  unfold GameManager.whack
  simp [h]

/-- In the `Playing` state a non-space key goes through `handle_movement`
only. -/
theorem input_movement (g : GameManager) (key : Key) (hst : g.state = GameState.Playing)
    (hk : key ≠ Key.space) : g.input key = g.handle_movement key := by
  unfold GameManager.input GameManager.playing_key_press
  simp only [hst]
  rw [whack_non_space _ _ hk]

/-- C8: in the `Playing` state each movement key press translates the
cursor by exactly one cell length (`board.length / 3`) in its direction
(up decreases y, down increases y, left decreases x, right increases x),
with no clamping of the resulting coordinates. -/
theorem C8_movement (g : GameManager) (h : g.state = GameState.Playing) :
    ((g.input Key.up).cursor.pos.x = g.cursor.pos.x ∧
     (g.input Key.up).cursor.pos.y = g.cursor.pos.y - g.board.length / 3) ∧
    ((g.input Key.down).cursor.pos.x = g.cursor.pos.x ∧
     (g.input Key.down).cursor.pos.y = g.cursor.pos.y + g.board.length / 3) ∧
    ((g.input Key.left).cursor.pos.x = g.cursor.pos.x - g.board.length / 3 ∧
     (g.input Key.left).cursor.pos.y = g.cursor.pos.y) ∧
    ((g.input Key.right).cursor.pos.x = g.cursor.pos.x + g.board.length / 3 ∧
     (g.input Key.right).cursor.pos.y = g.cursor.pos.y) := by
  rw [input_movement g Key.up h (by simp), input_movement g Key.down h (by simp),
    input_movement g Key.left h (by simp), input_movement g Key.right h (by simp)]
  unfold GameManager.handle_movement
  norm_num [Vec2D.add, sub_eq_add_neg]

/-- Witness for C8: the four translations on a concrete `Playing`
manager. -/
theorem C8_witness :
    ((wMan0.input Key.up).cursor.pos.x = wMan0.cursor.pos.x ∧
     (wMan0.input Key.up).cursor.pos.y = wMan0.cursor.pos.y - wMan0.board.length / 3) ∧
    ((wMan0.input Key.down).cursor.pos.x = wMan0.cursor.pos.x ∧
     (wMan0.input Key.down).cursor.pos.y = wMan0.cursor.pos.y + wMan0.board.length / 3) ∧
    ((wMan0.input Key.left).cursor.pos.x = wMan0.cursor.pos.x - wMan0.board.length / 3 ∧
     (wMan0.input Key.left).cursor.pos.y = wMan0.cursor.pos.y) ∧
    ((wMan0.input Key.right).cursor.pos.x = wMan0.cursor.pos.x + wMan0.board.length / 3 ∧
     (wMan0.input Key.right).cursor.pos.y = wMan0.cursor.pos.y) :=
  C8_movement wMan0 rfl

/-- C1: in the `Playing` state, a space press with the cursor overlapping
exactly one occupied tile removes that tile (leaving all other slots
untouched) and increments the score by exactly 1; a space press with no
overlapping occupied tile changes neither score nor board. -/
theorem C1_whack_scoring (g : GameManager) (h : g.state = GameState.Playing) :
    (∀ i, occupiedOverlap g i → (∀ j, occupiedOverlap g j → j = i) →
      (g.input Key.space).score = g.score + 1 ∧
      (g.input Key.space).board.tiles = g.board.tiles.set i none) ∧
    ((∀ j, ¬ occupiedOverlap g j) →
      (g.input Key.space).score = g.score ∧ (g.input Key.space).board = g.board) := by
  rw [input_space_playing g h, whack_space_eq g]
  constructor
  · intro i hocc huniq
    have hmem : i ∈ g.overlappingIndices := (mem_overlappingIndices g i).mpr hocc
    have hne : g.overlappingIndices ≠ [] := List.ne_nil_of_mem hmem
    have hlen : g.overlappingIndices.length > 0 := List.length_pos.mpr hne
    have hhead : g.overlappingIndices.headD 0 = i :=
      huniq _ ((mem_overlappingIndices g _).mp (headD_mem_of_ne_nil _ 0 hne))
    rw [if_pos hlen]
    exact ⟨rfl, by rw [hhead]⟩
  · intro hno
    have hnil : g.overlappingIndices = [] := by
      rw [List.eq_nil_iff_forall_not_mem]
      intro j hj
      exact hno j ((mem_overlappingIndices g j).mp hj)
    rw [hnil]
    simp

/-- Witness for C1: on `wMan1` (one tile, under the cursor) a space press
scores and clears slot 4; on `wMan0` (empty board) it changes nothing. -/
theorem C1_witness :
    ((wMan1.input Key.space).score = wMan1.score + 1 ∧
     (wMan1.input Key.space).board.tiles = wMan1.board.tiles.set 4 none) ∧
    ((wMan0.input Key.space).score = wMan0.score ∧
     (wMan0.input Key.space).board = wMan0.board) := by
  constructor
  · refine (C1_whack_scoring wMan1 rfl).1 4 ?_ ?_
    · refine ⟨Sprite.new 100 100 100 100 RED, rfl, ?_⟩
      rw [is_overlapping_true_iff]
      norm_num [wMan1, wBoard1, Sprite.new, GameManager.new]
    · rintro j ⟨s, hjs, _⟩
      by_cases hj4 : j = 4
      · exact hj4
      · exfalso
        have hts : wMan1.board.tiles =
            (List.replicate 9 none).set 4 (some (Sprite.new 100 100 100 100 RED)) := rfl
        rw [hts, List.getElem?_set_ne (by omega)] at hjs
        rcases lt_or_ge j 9 with h9 | h9
        · rw [List.getElem?_replicate, if_pos h9] at hjs
          exact absurd hjs (by simp)
        · rw [List.getElem?_replicate, if_neg (by omega)] at hjs
          exact absurd hjs (by simp)
  · refine (C1_whack_scoring wMan0 rfl).2 ?_
    rintro j ⟨s, hjs, _⟩
    have hts : wMan0.board.tiles = List.replicate 9 none := rfl
    rw [hts] at hjs
    rcases lt_or_ge j 9 with h9 | h9
    · rw [List.getElem?_replicate, if_pos h9] at hjs
      exact absurd hjs (by simp)
    · rw [List.getElem?_replicate, if_neg (by omega)] at hjs
      exact absurd hjs (by simp)

/-- The grid invariant for boards: reachable boards keep their
construction-time side length, and every occupied slot holds a tile of
side `len/3` at its index's grid coordinates. -/
theorem boardReach_grid (len : ℚ) (b : Board) (h : BoardReach len b) :
    b.length = len ∧
    ∀ i s, b.tiles[i]? = some (some s) →
      s.pos.x = ((i % 3 : ℕ) : ℚ) * (len / 3) ∧ s.pos.y = ((i / 3 : ℕ) : ℚ) * (len / 3) ∧
      s.width = len / 3 ∧ s.height = len / 3 := by
  induction h with
  | base =>
      refine ⟨rfl, ?_⟩
      intro i s hs
      unfold Board.from_length at hs
      simp only at hs
      rcases lt_or_ge i 9 with hi | hi
      · rw [List.getElem?_replicate, if_pos hi] at hs
        exact absurd hs (by simp)
      · rw [List.getElem?_replicate, if_neg (by omega)] at hs
        exact absurd hs (by simp)
  | step_add b choice hb ih =>
      obtain ⟨hlen, hgrid⟩ := ih
      refine ⟨by rw [add_tile_board_length]; exact hlen, ?_⟩
      by_cases hfree : b.free_positions = []
      · rw [add_tile_of_full _ _ hfree]
        exact hgrid
      · rcases add_tile_spec b choice hfree with ⟨i, hmem, heq⟩
        have hnone := (mem_free_positions _ _).mp hmem
        have hilt : i < b.tiles.length := by
          rcases List.getElem?_eq_some.mp hnone with ⟨hlt, _⟩
          exact hlt
        intro j s hs
        rw [heq] at hs
        simp only at hs
        by_cases hij : i = j
        · subst hij
          rw [List.getElem?_set_self (by simpa using hilt)] at hs
          simp only [Option.some.injEq] at hs
          subst hs
          refine ⟨?_, ?_, by simp [Sprite.new, hlen], by simp [Sprite.new, hlen]⟩
          · simp [Sprite.new, Board.x_from_index, hlen]
          · simp [Sprite.new, Board.y_from_index, hlen]
        · rw [List.getElem?_set_ne hij] at hs
          exact hgrid j s hs
  | step_clear b hb ih =>
      obtain ⟨hlen, _⟩ := ih
      refine ⟨hlen, ?_⟩
      intro i s hs
      unfold Board.clear_board at hs
      simp only at hs
      rcases lt_or_ge i 9 with hi | hi
      · rw [List.getElem?_replicate, if_pos hi] at hs
        exact absurd hs (by simp)
      · rw [List.getElem?_replicate, if_neg (by omega)] at hs
        exact absurd hs (by simp)
  | step_remove b i hb ih =>
      obtain ⟨hlen, hgrid⟩ := ih
      refine ⟨hlen, ?_⟩
      intro j s hs
      simp only at hs
      by_cases hij : i = j
      · subst hij
        by_cases hilt : i < b.tiles.length
        · rw [List.getElem?_set_self (by simpa using hilt)] at hs
          exact absurd hs (by simp)
        · rw [List.set_eq_of_length_le (by omega)] at hs
          exact hgrid i s hs
      · rw [List.getElem?_set_ne hij] at hs
        exact hgrid j s hs

/-- C7: in every board reachable from `from_length(length)` by tile
additions, board clears and single-tile removals, each occupied slot `i`
holds exactly one tile positioned at `x = (i mod 3) * (length/3)`,
`y = (i div 3) * (length/3)` with width and height `length/3`. -/
theorem C7_tile_grid (len : ℚ) (b : Board) (h : BoardReach len b) (i : ℕ) (s : Sprite)
    (hs : b.tiles[i]? = some (some s)) :
    s.pos.x = ((i % 3 : ℕ) : ℚ) * (len / 3) ∧ s.pos.y = ((i / 3 : ℕ) : ℚ) * (len / 3) ∧
    s.width = len / 3 ∧ s.height = len / 3 :=
  (boardReach_grid len b h).2 i s hs

/-- Witness for C7: after one `add_tile` on a fresh board of side 300,
slot 0 holds a tile at the grid coordinates of index 0. -/
theorem C7_witness :
    (Sprite.new ((Board.from_length 300).x_from_index 0)
        ((Board.from_length 300).y_from_index 0) ((Board.from_length 300).length / 3)
        ((Board.from_length 300).length / 3) RED).pos.x = ((0 % 3 : ℕ) : ℚ) * (300 / 3) ∧
    (Sprite.new ((Board.from_length 300).x_from_index 0)
        ((Board.from_length 300).y_from_index 0) ((Board.from_length 300).length / 3)
        ((Board.from_length 300).length / 3) RED).pos.y = ((0 / 3 : ℕ) : ℚ) * (300 / 3) ∧
    (Sprite.new ((Board.from_length 300).x_from_index 0)
        ((Board.from_length 300).y_from_index 0) ((Board.from_length 300).length / 3)
        ((Board.from_length 300).length / 3) RED).width = 300 / 3 ∧
    (Sprite.new ((Board.from_length 300).x_from_index 0)
        ((Board.from_length 300).y_from_index 0) ((Board.from_length 300).length / 3)
        ((Board.from_length 300).length / 3) RED).height = 300 / 3 :=
  C7_tile_grid 300 ((Board.from_length 300).add_tile 0)
    (BoardReach.step_add (Board.from_length 300) 0 BoardReach.base) 0
    (Sprite.new ((Board.from_length 300).x_from_index 0)
      ((Board.from_length 300).y_from_index 0) ((Board.from_length 300).length / 3)
      ((Board.from_length 300).length / 3) RED) rfl

/-- C9: the `Win` state is never entered: every state reachable from a
fresh manager has a state other than `Win`. -/
theorem C9_win_never (ws mt mnt : ℚ) (g : GameManager) (h : Reach ws mt mnt g) :
    g.state ≠ GameState.Win := by
  induction h with
  | base => simp [GameManager.new]
  | step_update g dt choice _ ih =>
      unfold GameManager.update
      cases hs : g.state with
      | Playing =>
          rcases playing_update_state g dt choice with h1 | h1 <;> rw [h1]
          · rw [hs]
            simp
          · simp
      | Ready => exact ih
      | Win => exact ih
      | Lose => exact ih
  | step_input g key _ ih =>
      unfold GameManager.input
      cases hs : g.state with
      | Ready =>
          unfold GameManager.ready_key_press
          split_ifs
          · simp
          · exact ih
      | Playing =>
          unfold GameManager.playing_key_press
          rw [whack_state, handle_movement_state, hs]
          simp
      | Win => exact ih
      | Lose =>
          unfold GameManager.lose_key_press
          split_ifs
          · simp
          · exact ih

/-- Witness for C9: the fresh manager itself is not in the `Win` state. -/
theorem C9_witness : (GameManager.new 300 1 (1/10)).state ≠ GameState.Win :=
  C9_win_never 300 1 (1/10) (GameManager.new 300 1 (1/10)) Reach.base

/-- C6: on any manager reachable from `GameManager::new ws mt mnt`,
`reset()` produces a manager that the source's `PartialEq` considers equal
to a freshly constructed manager with the same window size and timing
parameters (board cleared, cursor recentred, state `Ready`, score 0,
timer 0). -/
theorem C6_reset_eq_new (ws mt mnt : ℚ) (g : GameManager) (h : Reach ws mt mnt g) :
    GameManager.manEq g.reset (GameManager.new ws mt mnt) = true := by
  obtain ⟨h1, h2, h3, h4, h5, h6, h7, h8, h9⟩ := reach_gameInv ws mt mnt g h
  unfold GameManager.manEq GameManager.reset GameManager.new
  simp only [Bool.and_eq_true, decide_eq_true_eq]
  refine ⟨⟨⟨⟨⟨?_, ?_⟩, trivial⟩, trivial⟩, ?_⟩, trivial⟩
  · unfold Board.clear_board Board.from_length
    simp [h1]
  · unfold Sprite.new
    simp only [GameManager.mk.injEq, Sprite.mk.injEq, Vec2D.mk.injEq]
    refine ⟨⟨?_, ?_⟩, h3, h4, h5⟩
    · rw [h1, h3]
    · rw [h1, h4]
  · exact h6

/-- Witness for C6: resetting the fresh manager compares equal to it. -/
theorem C6_witness :
    GameManager.manEq (GameManager.new 300 1 (1/10)).reset (GameManager.new 300 1 (1/10)) =
      true :=
  C6_reset_eq_new 300 1 (1/10) (GameManager.new 300 1 (1/10)) Reach.base

/-- Closed form of a `Playing` update tick whose decremented timer is
negative, with score below 100 and a board that is not full after the
spawn. -/
theorem update_playing_expired (g : GameManager) (dt : ℚ) (choice : ℕ)
    (hst : g.state = GameState.Playing) (ht : g.tile_timer - dt < 0)
    (hsc : g.score < 100) (hfull : (g.board.add_tile choice).is_full = false) :
    g.update dt choice =
      { g with
        board := g.board.add_tile choice
        tile_timer := g.max_time - (g.max_time - g.min_time) * ((g.score : ℚ) / 100) } := by
  unfold GameManager.update
  simp only [hst]
  unfold GameManager.playing_update
  dsimp only
  rw [if_pos ht, if_pos hsc, hfull]
  simp [hst]

/-- A list with two distinct members has length at least two. -/
theorem one_lt_length_of_mem_ne {α : Type} (l : List α) (a b : α) (ha : a ∈ l)
    (hb : b ∈ l) (hne : a ≠ b) : 1 < l.length := by
  cases l with
  | nil => simp at ha
  | cons x t =>
      cases t with
      | nil =>
          simp at ha hb
          subst ha
          subst hb
          exact absurd rfl hne
      | cons y u => simp [List.length_cons]

/-- C4 counterexample: with window size 0 (a degenerate but permitted
construction parameter) the claim fails: after a space press and two
expired update ticks the board holds two zero-size tiles that both
overlap the zero-size cursor, so more than one occupied tile overlaps
and the `assert_eq!(overlapping.len(), 1)` in `whack` would fire on the
next space press. -/
theorem C4_counterexample :
    Reach 0 1 1 degenerateMan ∧ 1 < degenerateMan.overlappingIndices.length := by
  refine ⟨Reach.step_update _ 2 0 (Reach.step_update _ 1 0
    (Reach.step_input _ Key.space Reach.base)), ?_⟩
  have h1 : (GameManager.new 0 1 1).input Key.space = mDegA := rfl
  have h2 : mDegA.update 1 0 = mDegB :=
    update_playing_expired mDegA 1 0 rfl (by norm_num [mDegA, GameManager.new])
      (by decide) rfl
  have h3 : mDegB.update 2 0 = mDegC :=
    update_playing_expired mDegB 2 0 rfl
      (by norm_num [mDegB, mDegA, GameManager.new]) (by decide) rfl
  have hdeg : degenerateMan = mDegC := by
    unfold degenerateMan
    rw [h1, h2, h3]
  rw [hdeg]
  have hov0 : occupiedOverlap mDegC 0 := by
    refine ⟨_, rfl, ?_⟩
    rw [is_overlapping_true_iff]
    norm_num [mDegC, mDegB, mDegA, GameManager.new, Sprite.new, Board.from_length,
      Board.add_tile, Board.random_position, Board.free_positions, Board.x_from_index,
      Board.y_from_index]
  have hov1 : occupiedOverlap mDegC 1 := by
    refine ⟨Sprite.new (((Board.from_length 0).add_tile 0).x_from_index 1)
      (((Board.from_length 0).add_tile 0).y_from_index 1)
      (((Board.from_length 0).add_tile 0).length / 3)
      (((Board.from_length 0).add_tile 0).length / 3) RED, rfl, ?_⟩
    rw [is_overlapping_true_iff]
    norm_num [Sprite.new, Board.x_from_index, Board.y_from_index, add_tile_board_length,
      mDegC, mDegB, mDegA, GameManager.new, Board.from_length]
  exact one_lt_length_of_mem_ne _ 0 1 ((mem_overlappingIndices mDegC 0).mpr hov0)
    ((mem_overlappingIndices mDegC 1).mpr hov1) (by omega)

/-- C4 (amended): provided the construction window size is positive, in
every reachable manager state at most one occupied tile overlaps the
cursor, so the overlap list computed by `whack` never has more than one
element and the internal `assert_eq!(overlapping.len(), 1)` never
fails. -/
theorem C4_at_most_one_overlap (ws mt mnt : ℚ) (hws : 0 < ws) (g : GameManager)
    (h : Reach ws mt mnt g) :
    (∀ i j, occupiedOverlap g i → occupiedOverlap g j → i = j) ∧
    g.overlappingIndices.length ≤ 1 := by
  have hinv := reach_gameInv ws mt mnt g h
  refine ⟨fun i j hi hj => gameInv_overlap_unique ws mt hws g hinv i j hi hj, ?_⟩
  exact length_le_one_of_nodup _ (overlappingIndices_nodup g)
    (fun a ha b hb => gameInv_overlap_unique ws mt hws g hinv a b
      ((mem_overlappingIndices g a).mp ha) ((mem_overlappingIndices g b).mp hb))

/-- Witness for the amended C4: at a positive window size (300, the one
the program uses) the fresh manager's whack overlap list has at most one
element. -/
theorem C4_witness :
    (0 : ℚ) < 300 ∧ (GameManager.new 300 1 (1/10)).overlappingIndices.length ≤ 1 :=
  ⟨by norm_num,
   (C4_at_most_one_overlap 300 1 (1/10) (by norm_num) (GameManager.new 300 1 (1/10))
     Reach.base).2⟩
